import Mathlib

/-!
Verification of the request-dispatch and task-scheduling core of a
kernel-bypass RPC server (the splinter repository).  The definitions below
are a shallow embedding of `db/src/sched.rs`, `db/src/dispatch.rs` and
`db/src/context.rs`.  Machine integers are modelled as `Nat` (no arithmetic
here ever wraps), NIC packet buffers are identified by opaque `Nat` ids, and
the heterogeneous trait objects stored on a run-queue are modelled by a
record of their observable behaviour (priority, the state `run` returns, and
what `tear` yields).
-/

/-- Execution state of a task, from `db/src/task.rs` (declared there, used by
`sched.rs` and `dispatch.rs`); the spec lists the same four states. -/
inductive TaskState
  | INITIALIZED
  | RUNNING
  | YIELDED
  | COMPLETED
deriving DecidableEq

/-- Priority of a task, from `db/src/task.rs`; DISPATCH is distinguished only
for the work-stealing policy. -/
inductive TaskPriority
  | DISPATCH
  | REQUEST
deriving DecidableEq

/-- A task as the scheduler observes it through the `Task` trait object:
`tid` identifies the task, `priority` and `state` are its current attributes,
`runResult` is the state its next `run()` returns, and `tearResult` is what
`tear()` yields after completion (the request and response packet ids). -/
structure STask where
  tid : Nat
  priority : TaskPriority
  state : TaskState
  runResult : TaskState
  tearResult : Option (Nat × Nat)
deriving DecidableEq

/-- Modelled from the spec: `rpc.rs` is not under `src/`.  The header-length
finalization pass rewrites length fields in place; at this abstraction a
response packet is an opaque id, so the pass is the identity on the id. -/
def fixup_header_length_fields (res : Nat) : Nat := res

/-- Running a task advances its recorded state to the state `run()` returned
(`sched.rs` pushes the mutated task back when it has not completed). -/
def runTask (t : STask) : STask := { t with state := t.runResult }

/-- State of one `RoundRobin` scheduler (`sched.rs` lines 33-58): the
watchdog timestamp, the compromised flag, the waiting run-queue and the
staged response packets. -/
structure SchedState where
  latest : Nat
  compromised : Bool
  waiting : List STask
  responses : List Nat
deriving DecidableEq

/-- The body shared by both task-running sites of `RoundRobin::poll`
(`sched.rs` lines 191-206 and 240-257): the task has been removed from the
queue; if `run()` returned COMPLETED, `tear()` is consulted, the request
packet freed and the fixed-up response staged; otherwise the task is pushed
onto the back of the waiting queue. -/
def runPopped (s : SchedState) (t : STask) : SchedState :=
  if t.runResult = TaskState.COMPLETED then
    match t.tearResult with
    | some (_req, res) =>
        { s with responses := s.responses ++ [fixup_header_length_fields res] }
    | none => s
  else
    { s with waiting := s.waiting ++ [runTask t] }

/-- The task-stealing kernel of `RoundRobin::poll` (`sched.rs` lines
224-236), acting on a sibling waiting queue: steal only when the queue
length exceeds 1; `pop_front` when the front task is not DISPATCH, else
`pop_back`.  Returns the stolen task (if any) and the remaining queue. -/
def stealFromQueue (q : List STask) : Option STask × List STask :=
  if q.length > 1 then
    match q with
    | [] => (none, q)
    | front :: rest =>
        if front.priority ≠ TaskPriority.DISPATCH then
          (some front, rest)
        else
          (q.getLast?, q.dropLast)
  else
    (none, q)

/-- Advance of the steal-victim index in `RoundRobin::poll` (`sched.rs` line
219): `sibling_id = (sibling_id + 1) % 7`, with the source comment
"Assuming we have 8 schedulers". -/
def advance_sibling_id (id : Nat) : Nat := (id + 1) % 7

/-- Modelled from the spec (for comparison with `advance_sibling_id`): the
spec says the index advances "modulo (N_siblings - 1)" where `n` is the
actual number of registered sibling schedulers. -/
def advance_sibling_id_spec (id n : Nat) : Nat := (id + 1) % (n - 1)

/-- The steal-victim index after `k` iterations of the stealing branch,
starting from the initial `sibling_id = 0` of `RoundRobin::poll`. -/
def sibling_id_after : Nat → Nat
  | 0 => 0
  | k + 1 => advance_sibling_id (sibling_id_after k)

/-- Result of one iteration of the `loop` in `RoundRobin::poll`: either the
scheduler returned to its caller, or it continues with updated local state
(the scheduler state, the two loop locals, and the sibling queues). -/
inductive PollStep
  | ret (s : SchedState)
  | cont (s : SchedState) (sibId : Nat) (sibTurn : Bool) (sibs : List (List STask))
deriving DecidableEq

/-- One iteration of the `loop` of `RoundRobin::poll` (`sched.rs` lines
177-261).  `now` is the cycle counter read at the top; `lockSibs` and
`lockQueue` say whether the two try-locks on the sibling registry and the
victim queue succeed; `sibs` holds the sibling waiting queues.  The
iteration stores `now` into `latest`, returns if the compromised flag is
set, otherwise pops and runs the head task, and in alternating mode on a
stealing turn advances the victim index and attempts a steal.  Out-of-range
sibling indexing (a panic in the source) is modelled as an empty victim
queue, from which nothing can be stolen. -/
def pollIter (now : Nat) (lockSibs lockQueue : Bool) (s : SchedState)
    (sibId : Nat) (sibTurn : Bool) (sibs : List (List STask)) : PollStep :=
  let s1 : SchedState := { s with latest := now }
  if s1.compromised then
    PollStep.ret s1
  else
    let s2 : SchedState :=
      match s1.waiting with
      | [] => s1
      | t :: rest => runPopped { s1 with waiting := rest } t
    if s2.waiting.length = 1 then
      if sibTurn then
        let sibId2 := advance_sibling_id sibId
        if lockSibs && lockQueue then
          let q := sibs.getD sibId2 []
          let res := stealFromQueue q
          let sibs2 := sibs.set sibId2 res.2
          match res.1 with
          | none => PollStep.cont s2 sibId2 false sibs2
          | some t => PollStep.cont (runPopped s2 t) sibId2 false sibs2
        else
          PollStep.cont s2 sibId2 false sibs
      else
        PollStep.cont s2 sibId true sibs
    else
      PollStep.cont s2 sibId sibTurn sibs

/-!
The packet pipeline of `db/src/dispatch.rs`.  A received frame is modelled
by the header fields the classifier inspects, plus the envelope service byte
and the (external) master dispatch outcome.  `pid` is the opaque NIC buffer
id, which also records receive order within a burst.
-/

/-- Modelled from the spec: `common.rs` is not under `src/`.  The expected
ethertype of a request frame (spec scenario S1 uses 0x0800). -/
def PACKET_ETYPE : Nat := 0x0800

/-- Modelled from the spec: `common.rs` is not under `src/`.  The length of
a bare response IP header; `parse_ip_headers` requires at least two more
bytes of payload. -/
def PACKET_IP_LEN : Nat := 20

/-- Modelled from the spec: `common.rs` is not under `src/`.  The length of
a bare response UDP header; `parse_udp_headers` requires at least two more
bytes of payload. -/
def PACKET_UDP_LEN : Nat := 8

/-- A raw frame as the classifier and service adapter observe it. -/
structure RawPacket where
  pid : Nat
  etype : Nat
  ipVersion : Nat
  ipTtl : Nat
  ipLength : Nat
  ipDst : Nat
  udpLength : Nat
  service : Nat
  dispatchOk : Bool
deriving DecidableEq

/-- Classifier configuration carried by `Dispatch` (`dispatch.rs` field
`network_ip_addr`). -/
structure DispatchCfg where
  network_ip_addr : Nat
deriving DecidableEq

/-- L2 acceptance (`dispatch.rs` lines 454-457): the ethertype must equal
the configured value. -/
def macValid (p : RawPacket) : Bool := p.etype == PACKET_ETYPE

/-- L3 acceptance (`dispatch.rs` lines 517-523): IPv4, TTL above zero,
total length at least the minimum, destination address equal to the
server address. -/
def ipValid (cfg : DispatchCfg) (p : RawPacket) : Bool :=
  (p.ipVersion == 4) && (decide (p.ipTtl > 0))
    && (decide (p.ipLength ≥ PACKET_IP_LEN + 2)) && (p.ipDst == cfg.network_ip_addr)

/-- L4 acceptance (`dispatch.rs` lines 576-580): the UDP length must be at
least the minimum. -/
def udpValid (p : RawPacket) : Bool := decide (p.udpLength ≥ PACKET_UDP_LEN + 2)

/-- Modelled from the spec: `wireformat.rs` is not under `src/`.  The
service adapter accepts a request only when its envelope service byte names
the one master service (MasterService = 1). -/
def serviceValid (p : RawPacket) : Bool := p.service == 1

/-- The loop shape shared by `parse_mac_headers`, `parse_ip_headers` and
`parse_udp_headers` (`dispatch.rs` lines 437-597): pop packets off the back
of the input vector, push each surviving packet onto the back of the result
vector, free the rest.  Popping every element of a vector visits it in
reverse order, so the loop is a fold over the reversed input. -/
def parse_stage (valid : RawPacket → Bool) (packets : List RawPacket) : List RawPacket :=
  packets.reverse.foldl (fun parsed p => if valid p then parsed.concat p else parsed) []

/-- `Dispatch::parse_mac_headers` (`dispatch.rs` lines 437-474). -/
def parse_mac_headers (packets : List RawPacket) : List RawPacket :=
  parse_stage macValid packets

/-- `Dispatch::parse_ip_headers` (`dispatch.rs` lines 496-540). -/
def parse_ip_headers (cfg : DispatchCfg) (packets : List RawPacket) : List RawPacket :=
  parse_stage (ipValid cfg) packets

/-- `Dispatch::parse_udp_headers` (`dispatch.rs` lines 559-597). -/
def parse_udp_headers (packets : List RawPacket) : List RawPacket :=
  parse_stage udpValid packets

/-- `Dispatch::dispatch_requests` (`dispatch.rs` lines 608-654): pop
requests off the back of the vector; for each request whose envelope names
the master service and whose master dispatch succeeds, enqueue the produced
task (identified here by the source packet id) on the back of the
scheduler's run-queue; otherwise free the request and its pre-allocated
response.  Returns the run-queue ids in enqueue order. -/
def dispatch_requests (requests : List RawPacket) : List Nat :=
  requests.reverse.foldl
    (fun queue r => if serviceValid r && r.dispatchOk then queue.concat r.pid else queue) []

/-- The receive-path body of `Dispatch::poll` (`dispatch.rs` lines
696-717), applied identically to a received or a stolen burst: classifier
stages in order L2, L3, L4, then the service adapter.  Returns the task ids
enqueued on the local run-queue, in enqueue order. -/
def enqueuedTasks (cfg : DispatchCfg) (burst : List RawPacket) : List Nat :=
  dispatch_requests (parse_udp_headers (parse_ip_headers cfg (parse_mac_headers burst)))

/-- `Dispatch::select_sibling` (`dispatch.rs` lines 664-682): candidate
`one` is the last selected sibling, candidate `two` is a fresh PRNG draw
(passed in here, as the generator is external entropy), and the candidate
whose receive queue reports the greater depth wins, with ties kept by
`one`.  `qdepth` maps a sibling index to its reported RX queue depth. -/
def select_sibling (last_selected_sibling : Nat) (two : Nat) (qdepth : Nat → Nat) : Nat :=
  let one := last_selected_sibling
  if qdepth one ≥ qdepth two then one else two

/-- Mutable state of the `Dispatch` task itself (`dispatch.rs` fields
`state`, `time`, `priority`, `last_selected_sibling`). -/
structure DState where
  state : TaskState
  time : Nat
  priority : TaskPriority
  last_selected_sibling : Nat
deriving DecidableEq

/-- The world `Dispatch::poll` interacts with: the scheduler's staged
responses, the local receive queue burst, the per-sibling stealable bursts
and queue depths, the local run-queue, the transmitted packets, and the
PRNG draw consumed by sibling selection. -/
structure DWorld where
  responses : List Nat
  rx : List RawPacket
  sibBursts : Nat → List RawPacket
  sibDepths : Nat → Nat
  queue : List Nat
  tx : List Nat
  draw : Nat

/-- `Dispatch::poll` (`dispatch.rs` lines 688-719): drain staged responses
into transmit, then receive a burst locally and run it through the
pipeline; if nothing was received, select a sibling by power of two
choices and try to steal a burst from it, running any stolen burst through
the same pipeline. -/
def Dispatch.poll (cfg : DispatchCfg) (d : DState) (w : DWorld) : DState × DWorld :=
  let w1 := { w with tx := w.tx ++ w.responses, responses := [] }
  if w1.rx ≠ [] then
    (d, { w1 with queue := w1.queue ++ enqueuedTasks cfg w1.rx, rx := [] })
  else
    let sib := select_sibling d.last_selected_sibling w1.draw w1.sibDepths
    let d2 := { d with last_selected_sibling := sib }
    let stolen := w1.sibBursts sib
    if stolen ≠ [] then
      (d2, { w1 with
               queue := w1.queue ++ enqueuedTasks cfg stolen,
               sibBursts := fun i => if i = sib then [] else w1.sibBursts i })
    else
      (d2, w1)

/-- `Dispatch::run` (`dispatch.rs` lines 729-743): set the state to
RUNNING, poll, set the state to YIELDED, account the elapsed cycles
(`exec`, read from the cycle counter), and return the new state together
with the cycles consumed. -/
def Dispatch.run (cfg : DispatchCfg) (d : DState) (w : DWorld) (exec : Nat) :
    (TaskState × Nat) × DState × DWorld :=
  let d1 := { d with state := TaskState.RUNNING }
  let pr := Dispatch.poll cfg d1 w
  let d2 := { pr.1 with state := TaskState.YIELDED }
  let d3 := { d2 with time := d2.time + exec }
  ((d3.state, exec), d3, pr.2)

/-- `Dispatch::tear` (`dispatch.rs` lines 761-769): the Dispatch task never
returns any packets, whatever its state. -/
def Dispatch.tear (_d : DState) : Option (Nat × Nat) := none

/-!
The extension execution context of `db/src/context.rs`.  A table maps byte
string keys to byte string values; `tenant.get_table` is a lookup in the
tenant's table list.  `table.get` followed by `heap.resolve` yields the
stored value, folded here into a single association-list lookup (the
storage engine is an external collaborator per the spec).
-/

/-- A table: an association list from keys (byte lists) to values. -/
def Table := List (List Nat × List Nat)

/-- Lookup of a key in a table (`table.get(key)` then `heap.resolve`,
yielding the stored value when the object exists). -/
def Table.getVal (tbl : Table) (key : List Nat) : Option (List Nat) :=
  (tbl.find? (fun kv => kv.1 == key)).map Prod.snd

/-- The context state the claims depend on: the tenant's tables, indexed by
table id, and the running total of bytes allocated so far
(`context.rs` fields `tenant` and `allocs`). -/
structure Context where
  tables : List (Nat × Table)
  allocs : Nat

/-- `tenant.get_table(table_id)`: lookup of a table id in the tenant's
table list. -/
def Context.get_table (c : Context) (table_id : Nat) : Option Table :=
  (c.tables.find? (fun t => t.1 == table_id)).map Prod.snd

/-- Structural worker for `chunksOf`: `fuel` bounds the number of chunks
produced and starts at the length of the byte string, which always
suffices because every chunk removes at least one byte when `n` is not
zero. -/
def chunksOfAux (n : Nat) : Nat → List Nat → List (List Nat)
  | _, [] => []
  | 0, _ :: _ => []
  | fuel + 1, x :: xs =>
      if n = 0 then []
      else (x :: xs).take n :: chunksOfAux n fuel ((x :: xs).drop n)

/-- The chunk list traversed by `keys.chunks(key_len as usize)` in
`Context::multiget`: successive slices of length `key_len`; only the final
chunk can be shorter.  Rust panics on chunk size zero; the model returns no
chunks in that case. -/
def chunksOf (n : Nat) (l : List Nat) : List (List Nat) :=
  chunksOfAux n l.length l

/-- The key-scanning loop of `Context::multiget` (`context.rs` lines
158-174): a chunk shorter than `key_len` breaks out of the loop (after
which the values gathered so far are returned as a success); a missing key
returns `none` immediately; a found value is pushed onto `objs`. -/
def multigetLoop (tbl : Table) (key_len : Nat) :
    List (List Nat) → List (List Nat) → Option (List (List Nat))
  | [], objs => some objs
  | chunk :: rest, objs =>
      if chunk.length ≠ key_len then
        some objs
      else
        match tbl.getVal chunk with
        | none => none
        | some v => multigetLoop tbl key_len rest (objs.concat v)

/-- `Context::multiget` (`context.rs` lines 151-183): if the table exists,
scan the supplied keys chunk by chunk; otherwise return `none`. -/
def Context.multiget (c : Context) (table_id : Nat) (key_len : Nat)
    (keys : List Nat) : Option (List (List Nat)) :=
  match c.get_table table_id with
  | some tbl => multigetLoop tbl key_len (chunksOf key_len keys) []
  | none => none

/-- The hard per-context allocation quota (`context.rs` line 33). -/
def MAX_ALLOC : Nat := 10240

/-- `Context::alloc` (`context.rs` lines 186-201): refuse outright when the
bytes allocated so far have reached the quota; otherwise, if the tenant
owns the table and the heap yields a buffer (`raw` is the external
allocator's outcome, giving the length `buf.len()` of the returned buffer),
add that length to the running total and hand the buffer out. -/
def Context.alloc (c : Context) (table_id : Nat) (raw : Option Nat) :
    Option Nat × Context :=
  if c.allocs ≥ MAX_ALLOC then
    (none, c)
  else
    match c.get_table table_id with
    | none => (none, c)
    | some _ =>
        match raw with
        | none => (none, c)
        | some len => (some len, { c with allocs := c.allocs + len })

/-- A sequence of `alloc` calls on one context: each request carries the
table id and the external heap outcome.  Returns the final context and the
list of results. -/
def runAllocs (c : Context) : List (Nat × Option Nat) → Context × List (Option Nat)
  | [] => (c, [])
  | (tid, raw) :: rest =>
      let r := Context.alloc c tid raw
      let rest2 := runAllocs r.2 rest
      (rest2.1, r.1 :: rest2.2)

/-!
Theorems.  Shared helper lemmas come first; each claim then gets exactly
one theorem (with a witness or counterexample where required).
-/

/-- A list whose `getLast?` is `some a` contains `a`. -/
lemma mem_of_getLastSome {α : Type} {l : List α} {a : α}
    (h : l.getLast? = some a) : a ∈ l := by
  obtain ⟨hne, rfl⟩ := List.mem_getLast?_eq_getLast h
  exact List.getLast_mem hne

/-- Claim C2: in the task-stealing branch of `RoundRobin::poll`, the task
removed from a sibling's run-queue never has priority DISPATCH.  Stealing
happens only when the victim queue is longer than 1; `pop_front` is used
when the front task is not DISPATCH and `pop_back` otherwise.  The
hypothesis records the system invariant that a run-queue holds at most one
DISPATCH task (each scheduler enqueues exactly its own permanent Dispatch
task, and by this very theorem stealing never moves one). -/
theorem steal_never_dispatch (q q2 : List STask) (t : STask)
    (hinv : (q.filter (fun u => u.priority == TaskPriority.DISPATCH)).length ≤ 1)
    (h : stealFromQueue q = (some t, q2)) :
    t.priority ≠ TaskPriority.DISPATCH := by
  unfold stealFromQueue at h
  split at h
  · rename_i hlen
    split at h
    · exact absurd h (by simp)
    · rename_i front rest
      split at h
      · rename_i hp
        injection h with h1 h2
        injection h1 with h1
        subst h1
        exact hp
      · rename_i hp
        push_neg at hp
        injection h with h1 h2
        cases rest with
        | nil => simp at hlen
        | cons r rs =>
          rw [List.getLast?_cons_cons] at h1
          have htr : t ∈ r :: rs := mem_of_getLastSome h1
          rw [List.filter_cons] at hinv
          simp only [hp, beq_self_eq_true, if_true, List.length_cons] at hinv
          have hzero : (List.filter (fun u => u.priority == TaskPriority.DISPATCH)
              (r :: rs)).length = 0 := by omega
          have hnil := List.filter_eq_nil_iff.mp (List.length_eq_zero.mp hzero)
          intro hc
          exact hnil t htr (by simp [hc])
  · exact absurd h (by simp)

/-- Witness for `steal_never_dispatch` on the queue of spec scenario S5
(front task DISPATCH, tail tasks REQUEST): the stolen tail task is not
DISPATCH. -/
theorem steal_never_dispatch_witness :
    (([⟨0, TaskPriority.DISPATCH, TaskState.YIELDED, TaskState.YIELDED, none⟩,
       ⟨1, TaskPriority.REQUEST, TaskState.INITIALIZED, TaskState.COMPLETED, some (7, 8)⟩] :
        List STask).filter (fun u => u.priority == TaskPriority.DISPATCH)).length ≤ 1 ∧
    (⟨1, TaskPriority.REQUEST, TaskState.INITIALIZED, TaskState.COMPLETED,
        some (7, 8)⟩ : STask).priority ≠ TaskPriority.DISPATCH :=
  ⟨by decide,
   steal_never_dispatch
     [⟨0, TaskPriority.DISPATCH, TaskState.YIELDED, TaskState.YIELDED, none⟩,
      ⟨1, TaskPriority.REQUEST, TaskState.INITIALIZED, TaskState.COMPLETED, some (7, 8)⟩]
     [⟨0, TaskPriority.DISPATCH, TaskState.YIELDED, TaskState.YIELDED, none⟩]
     ⟨1, TaskPriority.REQUEST, TaskState.INITIALIZED, TaskState.COMPLETED, some (7, 8)⟩
     (by decide) (by decide)⟩

/-- Claim C6 (amended): a task transferred by task stealing is one of the
tasks waiting on the sibling's run-queue — it is not currently executing —
but it need not be in its initial state: the steal inspects only queue
length and the front task's priority, never whether a task has run. -/
theorem steal_from_waiting (q q2 : List STask) (t : STask)
    (h : stealFromQueue q = (some t, q2)) : t ∈ q := by
  unfold stealFromQueue at h
  split at h
  · split at h
    · exact absurd h (by simp)
    · rename_i front rest
      split at h
      · injection h with h1 h2
        injection h1 with h1
        subst h1
        exact List.mem_cons_self _ _
      · injection h with h1 h2
        exact mem_of_getLastSome h1
  · exact absurd h (by simp)

/-- Witness for `steal_from_waiting`: the task stolen from the concrete
two-task queue is a member of that queue. -/
theorem steal_from_waiting_witness :
    (⟨1, TaskPriority.REQUEST, TaskState.YIELDED, TaskState.COMPLETED, some (7, 8)⟩ : STask) ∈
      ([⟨0, TaskPriority.DISPATCH, TaskState.YIELDED, TaskState.YIELDED, none⟩,
        ⟨1, TaskPriority.REQUEST, TaskState.YIELDED, TaskState.COMPLETED, some (7, 8)⟩] :
        List STask) :=
  steal_from_waiting
    [⟨0, TaskPriority.DISPATCH, TaskState.YIELDED, TaskState.YIELDED, none⟩,
     ⟨1, TaskPriority.REQUEST, TaskState.YIELDED, TaskState.COMPLETED, some (7, 8)⟩]
    [⟨0, TaskPriority.DISPATCH, TaskState.YIELDED, TaskState.YIELDED, none⟩]
    ⟨1, TaskPriority.REQUEST, TaskState.YIELDED, TaskState.COMPLETED, some (7, 8)⟩
    (by decide)

/-- Counterexample to claim C6 as stated: the steal branch happily removes
a task whose state is YIELDED — a task that has already executed — from a
sibling queue whose front is the Dispatch task.  The stolen task is not in
its initial (never-run) state. -/
theorem steal_yielded_counterexample :
    stealFromQueue
      [⟨0, TaskPriority.DISPATCH, TaskState.YIELDED, TaskState.YIELDED, none⟩,
       ⟨1, TaskPriority.REQUEST, TaskState.YIELDED, TaskState.COMPLETED, some (7, 8)⟩]
      = (some ⟨1, TaskPriority.REQUEST, TaskState.YIELDED, TaskState.COMPLETED, some (7, 8)⟩,
         [⟨0, TaskPriority.DISPATCH, TaskState.YIELDED, TaskState.YIELDED, none⟩]) ∧
    (⟨1, TaskPriority.REQUEST, TaskState.YIELDED, TaskState.COMPLETED,
        some (7, 8)⟩ : STask).state ≠ TaskState.INITIALIZED := by
  decide

/-- Closed form of the steal-victim index sequence: the code's index after
`k` stealing iterations is `k % 7`, whatever the sibling count. -/
lemma sibling_id_after_closed (k : Nat) : sibling_id_after k = k % 7 := by
  induction k with
  | zero => rfl
  | succ k ih =>
      simp only [sibling_id_after, advance_sibling_id, ih]
      omega

/-- Claim C3 (amended): the steal-victim index advances as `(i + 1) % 7`
with a fixed divisor of 7 (the source comment assumes 8 schedulers),
independent of the registered sibling count; every index below 7 is
eventually selected, and no index at or above 7 ever is. -/
theorem steal_index_fixed_modulo (k : Nat) :
    sibling_id_after (k + 1) = (k + 1) % 7 ∧
    sibling_id_after (k + 1) < 7 ∧
    (∀ j, j < 7 → ∃ m, sibling_id_after m = j) := by
  refine ⟨sibling_id_after_closed (k + 1), ?_, ?_⟩
  · rw [sibling_id_after_closed]
    omega
  · intro j hj
    exact ⟨j, by rw [sibling_id_after_closed]; omega⟩

/-- Witness for `steal_index_fixed_modulo` at concrete inputs. -/
theorem steal_index_fixed_modulo_witness :
    sibling_id_after 1 = 1 % 7 ∧ (3 < 7 ∧ ∃ m, sibling_id_after m = 3) :=
  ⟨(steal_index_fixed_modulo 0).1, by decide,
   (steal_index_fixed_modulo 0).2.2 3 (by decide)⟩

/-- Counterexample to claim C3 as stated: with 9 registered siblings the
claimed advance is modulo 8, but the code advances modulo the fixed 7
(`advance_sibling_id 7` gives 1, not 0), and the victim index sequence
never selects sibling 7 at all. -/
theorem steal_index_counterexample :
    advance_sibling_id 7 = 1 ∧ advance_sibling_id_spec 7 9 = 0 ∧
    advance_sibling_id 7 ≠ advance_sibling_id_spec 7 9 ∧
    (∀ m, sibling_id_after m ≠ 7) := by
  refine ⟨rfl, rfl, by decide, ?_⟩
  intro m
  rw [sibling_id_after_closed]
  omega

/-- Claim C7: when the compromised flag is set, the next iteration of the
scheduler loop returns to the caller before popping any task; only the
watchdog timestamp changes, and the run-queue and response staging buffer
are returned intact. -/
theorem compromised_returns (now : Nat) (lockSibs lockQueue : Bool) (s : SchedState)
    (sibId : Nat) (sibTurn : Bool) (sibs : List (List STask))
    (h : s.compromised = true) :
    pollIter now lockSibs lockQueue s sibId sibTurn sibs
      = PollStep.ret { s with latest := now } ∧
    ({ s with latest := now } : SchedState).waiting = s.waiting ∧
    ({ s with latest := now } : SchedState).responses = s.responses := by
  refine ⟨?_, rfl, rfl⟩
  unfold pollIter
  simp [h]

/-- Witness for `compromised_returns` on a concrete compromised scheduler
with a non-empty run-queue and staging buffer. -/
theorem compromised_returns_witness :
    ((⟨0, true, [⟨4, TaskPriority.DISPATCH, TaskState.YIELDED, TaskState.YIELDED, none⟩],
        [9]⟩ : SchedState).compromised = true) ∧
    (pollIter 5 true true
        ⟨0, true, [⟨4, TaskPriority.DISPATCH, TaskState.YIELDED, TaskState.YIELDED, none⟩], [9]⟩
        0 true []
      = PollStep.ret { (⟨0, true,
          [⟨4, TaskPriority.DISPATCH, TaskState.YIELDED, TaskState.YIELDED, none⟩],
          [9]⟩ : SchedState) with latest := 5 } ∧
     ({ (⟨0, true, [⟨4, TaskPriority.DISPATCH, TaskState.YIELDED, TaskState.YIELDED, none⟩],
          [9]⟩ : SchedState) with latest := 5 } : SchedState).waiting
        = (⟨0, true, [⟨4, TaskPriority.DISPATCH, TaskState.YIELDED, TaskState.YIELDED, none⟩],
          [9]⟩ : SchedState).waiting ∧
     ({ (⟨0, true, [⟨4, TaskPriority.DISPATCH, TaskState.YIELDED, TaskState.YIELDED, none⟩],
          [9]⟩ : SchedState) with latest := 5 } : SchedState).responses
        = (⟨0, true, [⟨4, TaskPriority.DISPATCH, TaskState.YIELDED, TaskState.YIELDED, none⟩],
          [9]⟩ : SchedState).responses) :=
  ⟨rfl, compromised_returns 5 true true
    ⟨0, true, [⟨4, TaskPriority.DISPATCH, TaskState.YIELDED, TaskState.YIELDED, none⟩], [9]⟩
    0 true [] rfl⟩

/-- Claim C8: every invocation of `Dispatch::run` returns YIELDED and never
COMPLETED, whether the poll received packets locally, stole a burst from a
sibling, or found nothing at all. -/
theorem dispatch_run_yields (cfg : DispatchCfg) (d : DState) (w : DWorld) (exec : Nat) :
    (Dispatch.run cfg d w exec).1.1 = TaskState.YIELDED ∧
    (Dispatch.run cfg d w exec).1.1 ≠ TaskState.COMPLETED := by
  have h1 : (Dispatch.run cfg d w exec).1.1 = TaskState.YIELDED := rfl
  refine ⟨h1, ?_⟩
  rw [h1]
  decide

/-- Claim C9: `Dispatch::select_sibling` considers two candidate sibling
indices — the first candidate is the last-selected sibling, the second a
fresh PRNG draw — and returns the candidate whose receive queue reports the
larger depth (the last-selected sibling wins ties). -/
theorem select_sibling_pow2 (last two : Nat) (qdepth : Nat → Nat) :
    (select_sibling last two qdepth = last ∨ select_sibling last two qdepth = two) ∧
    qdepth (select_sibling last two qdepth) = max (qdepth last) (qdepth two) := by
  unfold select_sibling
  by_cases h : qdepth last ≥ qdepth two
  · rw [if_pos h]
    exact ⟨Or.inl rfl, (Nat.max_eq_left h).symm⟩
  · rw [if_neg h]
    exact ⟨Or.inr rfl, (Nat.max_eq_right (Nat.le_of_not_le h)).symm⟩

/-- Claim C10: `Dispatch::tear` returns `none` whatever the task's state,
so the scheduler's completion path, handed a task that tears to nothing,
frees no request packet and stages no response: `runPopped` leaves the
scheduler state untouched. -/
theorem dispatch_tear_none (d : DState) (s : SchedState) (t : STask)
    (ht : t.tearResult = none) :
    Dispatch.tear d = none ∧
    (t.runResult = TaskState.COMPLETED → runPopped s t = s) := by
  refine ⟨rfl, fun hc => ?_⟩
  unfold runPopped
  rw [if_pos hc, ht]

/-- Witness for `dispatch_tear_none` on a concrete Dispatch task state and
a scheduler with a staged response. -/
theorem dispatch_tear_none_witness :
    ((⟨2, TaskPriority.DISPATCH, TaskState.YIELDED, TaskState.COMPLETED, none⟩ : STask).tearResult
        = none) ∧
    (Dispatch.tear ⟨TaskState.INITIALIZED, 0, TaskPriority.DISPATCH, 0⟩ = none ∧
     ((⟨2, TaskPriority.DISPATCH, TaskState.YIELDED, TaskState.COMPLETED,
         none⟩ : STask).runResult = TaskState.COMPLETED →
       runPopped ⟨0, false, [], [3]⟩
           ⟨2, TaskPriority.DISPATCH, TaskState.YIELDED, TaskState.COMPLETED, none⟩
         = ⟨0, false, [], [3]⟩)) :=
  ⟨rfl, dispatch_tear_none ⟨TaskState.INITIALIZED, 0, TaskPriority.DISPATCH, 0⟩
    ⟨0, false, [], [3]⟩
    ⟨2, TaskPriority.DISPATCH, TaskState.YIELDED, TaskState.COMPLETED, none⟩ rfl⟩

/-- The push-if fold of a parse stage is append of the filtered input. -/
lemma foldl_concat_if (valid : RawPacket → Bool) (l : List RawPacket) (acc : List RawPacket) :
    l.foldl (fun parsed p => if valid p then parsed.concat p else parsed) acc
      = acc ++ l.filter valid := by
  induction l generalizing acc with
  | nil => simp
  | cons p l ih =>
      simp only [List.foldl_cons, List.filter_cons]
      by_cases h : valid p
      · rw [if_pos h, if_pos h, ih]
        simp
      · rw [if_neg h, if_neg h, ih]

/-- A parse stage keeps exactly the valid packets, in the reverse of its
input order (it pops from the back of the input vector). -/
lemma parse_stage_eq (valid : RawPacket → Bool) (ps : List RawPacket) :
    parse_stage valid ps = ps.reverse.filter valid := by
  unfold parse_stage
  rw [foldl_concat_if]
  simp

/-- The enqueue fold of the service adapter is append of the filtered,
id-mapped input. -/
lemma foldl_concat_pid (ok : RawPacket → Bool) (l : List RawPacket) (acc : List Nat) :
    l.foldl (fun queue r => if ok r then queue.concat r.pid else queue) acc
      = acc ++ (l.filter ok).map RawPacket.pid := by
  induction l generalizing acc with
  | nil => simp
  | cons r l ih =>
      simp only [List.foldl_cons, List.filter_cons]
      by_cases h : ok r
      · rw [if_pos h, if_pos h, ih]
        simp
      · rw [if_neg h, if_neg h, ih]

/-- The service adapter enqueues one task per surviving request, visiting
requests in the reverse of its input order (it pops from the back). -/
lemma dispatch_requests_eq (requests : List RawPacket) :
    dispatch_requests requests
      = ((requests.reverse.filter (fun r => serviceValid r && r.dispatchOk)).map
          RawPacket.pid) := by
  unfold dispatch_requests
  rw [foldl_concat_pid (fun r => serviceValid r && r.dispatchOk)]
  simp

/-- Claim C1: for a burst whose packets all pass L2, L3 and L4 validation,
the tasks enqueued on the local run-queue by `Dispatch::poll` (for a burst
received locally or stolen — both paths run the same pipeline) appear in
exactly the packets' receive order: each stage pops from the back of its
input vector, so the three classifier stages plus the service adapter
reverse the burst four times, which is the identity.  Survivors of the
service adapter keep receive order (first conjunct); when every packet is
also dispatched successfully, all N tasks are enqueued in receive order
(second conjunct). -/
theorem burst_order_preserved (cfg : DispatchCfg) (burst : List RawPacket)
    (h : ∀ p ∈ burst, macValid p = true ∧ ipValid cfg p = true ∧ udpValid p = true) :
    enqueuedTasks cfg burst
      = ((burst.filter (fun p => serviceValid p && p.dispatchOk)).map RawPacket.pid) ∧
    ((∀ p ∈ burst, (serviceValid p && p.dispatchOk) = true) →
      enqueuedTasks cfg burst = burst.map RawPacket.pid) := by
  have hmac : parse_mac_headers burst = burst.reverse := by
    unfold parse_mac_headers
    rw [parse_stage_eq]
    exact List.filter_eq_self.mpr (fun p hp => (h p (List.mem_reverse.mp hp)).1)
  have hip : parse_ip_headers cfg burst.reverse = burst := by
    unfold parse_ip_headers
    rw [parse_stage_eq, List.reverse_reverse]
    exact List.filter_eq_self.mpr (fun p hp => (h p hp).2.1)
  have hudp : parse_udp_headers burst = burst.reverse := by
    unfold parse_udp_headers
    rw [parse_stage_eq]
    exact List.filter_eq_self.mpr (fun p hp => (h p (List.mem_reverse.mp hp)).2.2)
  have main : enqueuedTasks cfg burst
      = (burst.filter (fun p => serviceValid p && p.dispatchOk)).map RawPacket.pid := by
    unfold enqueuedTasks
    rw [hmac, hip, hudp, dispatch_requests_eq, List.reverse_reverse]
  refine ⟨main, fun h2 => ?_⟩
  rw [main, List.filter_eq_self.mpr h2]

/-- Witness for `burst_order_preserved`: a concrete two-packet burst of
valid requests is enqueued as two tasks in receive order. -/
theorem burst_order_preserved_witness :
    (∀ p ∈ ([⟨0, 2048, 4, 64, 30, 5, 12, 1, true⟩,
             ⟨1, 2048, 4, 64, 30, 5, 12, 1, true⟩] : List RawPacket),
       macValid p = true ∧ ipValid ⟨5⟩ p = true ∧ udpValid p = true) ∧
    (enqueuedTasks ⟨5⟩ [⟨0, 2048, 4, 64, 30, 5, 12, 1, true⟩,
                        ⟨1, 2048, 4, 64, 30, 5, 12, 1, true⟩]
       = ((([⟨0, 2048, 4, 64, 30, 5, 12, 1, true⟩,
             ⟨1, 2048, 4, 64, 30, 5, 12, 1, true⟩] : List RawPacket).filter
             (fun p => serviceValid p && p.dispatchOk)).map RawPacket.pid) ∧
     ((∀ p ∈ ([⟨0, 2048, 4, 64, 30, 5, 12, 1, true⟩,
               ⟨1, 2048, 4, 64, 30, 5, 12, 1, true⟩] : List RawPacket),
         (serviceValid p && p.dispatchOk) = true) →
       enqueuedTasks ⟨5⟩ [⟨0, 2048, 4, 64, 30, 5, 12, 1, true⟩,
                          ⟨1, 2048, 4, 64, 30, 5, 12, 1, true⟩]
         = ([⟨0, 2048, 4, 64, 30, 5, 12, 1, true⟩,
             ⟨1, 2048, 4, 64, 30, 5, 12, 1, true⟩] : List RawPacket).map RawPacket.pid)) :=
  ⟨by decide,
   burst_order_preserved ⟨5⟩
     [⟨0, 2048, 4, 64, 30, 5, 12, 1, true⟩, ⟨1, 2048, 4, 64, 30, 5, 12, 1, true⟩]
     (by decide)⟩

/-- When the chunk size divides the byte string length, every chunk
produced has exactly the chunk size (there is no short trailing chunk). -/
lemma chunksOfAux_wellformed (n : Nat) (hn : 0 < n) :
    ∀ (fuel : Nat) (l : List Nat), l.length ≤ fuel → n ∣ l.length →
      ∀ c ∈ chunksOfAux n fuel l, c.length = n := by
  intro fuel
  induction fuel with
  | zero =>
      intro l hl hd c hc
      cases l with
      | nil => simp [chunksOfAux] at hc
      | cons x xs => simp at hl
  | succ fuel ih =>
      intro l hl hd c hc
      cases l with
      | nil => simp [chunksOfAux] at hc
      | cons x xs =>
          have hn0 : ¬ n = 0 := Nat.pos_iff_ne_zero.mp hn
          simp only [chunksOfAux, if_neg hn0] at hc
          rcases List.mem_cons.mp hc with hc1 | hc2
          · subst hc1
            rw [List.length_take]
            have hle : n ≤ (x :: xs).length := Nat.le_of_dvd (by simp) hd
            omega
          · refine ih ((x :: xs).drop n) ?_ ?_ c hc2
            · rw [List.length_drop]
              simp only [List.length_cons] at hl ⊢
              omega
            · rw [List.length_drop]
              exact Nat.dvd_sub' hd (dvd_refl n)

/-- When every chunk is well-formed and every key is present, the multiget
scan succeeds with one value appended per chunk. -/
lemma multigetLoop_all_found (tbl : Table) (key_len : Nat) :
    ∀ (chunks : List (List Nat)) (objs : List (List Nat)),
      (∀ c ∈ chunks, c.length = key_len) →
      (∀ c ∈ chunks, (tbl.getVal c).isSome) →
      ∃ vs, multigetLoop tbl key_len chunks objs = some (objs ++ vs) ∧
        vs.length = chunks.length := by
  intro chunks
  induction chunks with
  | nil => exact fun objs _ _ => ⟨[], by simp [multigetLoop]⟩
  | cons c rest ih =>
      intro objs hwf hsome
      have hc : c.length = key_len := hwf c (by simp)
      obtain ⟨v, hv⟩ := Option.isSome_iff_exists.mp (hsome c (by simp))
      obtain ⟨vs, hloop, hlen⟩ := ih (objs.concat v)
        (fun d hd => hwf d (by simp [hd])) (fun d hd => hsome d (by simp [hd]))
      refine ⟨v :: vs, ?_, by simp [hlen]⟩
      rw [multigetLoop, if_neg (by simp [hc])]
      simp only [hv, hloop]
      simp

/-- When every chunk is well-formed and some key is missing, the multiget
scan fails with `none`. -/
lemma multigetLoop_missing (tbl : Table) (key_len : Nat) :
    ∀ (chunks : List (List Nat)) (objs : List (List Nat)),
      (∀ c ∈ chunks, c.length = key_len) →
      (∃ c ∈ chunks, tbl.getVal c = none) →
      multigetLoop tbl key_len chunks objs = none := by
  intro chunks
  induction chunks with
  | nil =>
      intro objs _ h
      obtain ⟨c, hc, _⟩ := h
      simp at hc
  | cons c rest ih =>
      intro objs hwf hmiss
      have hc : c.length = key_len := hwf c (by simp)
      rw [multigetLoop, if_neg (by simp [hc])]
      cases hv : tbl.getVal c with
      | none => simp only [hv]
      | some v =>
          simp only [hv]
          refine ih (objs.concat v) (fun d hd => hwf d (by simp [hd])) ?_
          obtain ⟨d, hd, hdnone⟩ := hmiss
          rcases List.mem_cons.mp hd with rfl | hd2
          · rw [hv] at hdnone
            exact absurd hdnone (by simp)
          · exact ⟨d, hd2, hdnone⟩

/-- Claim C4 (amended): for a table that exists and a well-formed key
string (`key_len` divides its length, so every chunk has length
`key_len`), `Context::multiget` is all-or-nothing: if every key is
present it returns a buffer with one value per supplied key, and if any
key is missing it returns `none`.  (A malformed trailing chunk instead
stops the scan early and returns the values gathered so far — see the
counterexample.) -/
theorem multiget_all_or_nothing (c : Context) (table_id key_len : Nat) (keys : List Nat)
    (tbl : Table) (htbl : c.get_table table_id = some tbl)
    (hk : 0 < key_len) (hwf : key_len ∣ keys.length) :
    ((∀ ch ∈ chunksOf key_len keys, (tbl.getVal ch).isSome) →
      ∃ vs, c.multiget table_id key_len keys = some vs ∧
        vs.length = (chunksOf key_len keys).length) ∧
    ((∃ ch ∈ chunksOf key_len keys, tbl.getVal ch = none) →
      c.multiget table_id key_len keys = none) := by
  have hchunks : ∀ ch ∈ chunksOf key_len keys, ch.length = key_len :=
    chunksOfAux_wellformed key_len hk keys.length keys (Nat.le_refl _) hwf
  have hm : c.multiget table_id key_len keys
      = multigetLoop tbl key_len (chunksOf key_len keys) [] := by
    unfold Context.multiget
    rw [htbl]
  constructor
  · intro hall
    obtain ⟨vs, h1, h2⟩ :=
      multigetLoop_all_found tbl key_len (chunksOf key_len keys) [] hchunks hall
    refine ⟨vs, ?_, h2⟩
    rw [hm, h1]
    simp
  · intro hmiss
    rw [hm]
    exact multigetLoop_missing tbl key_len (chunksOf key_len keys) [] hchunks hmiss

/-- Witness for `multiget_all_or_nothing`: both keys of a well-formed
two-key string are present, so multiget returns two values; and on a table
missing one key it returns none. -/
theorem multiget_all_or_nothing_witness :
    (Context.get_table ⟨[(1, [([1, 2], [9]), ([3, 4], [8])])], 0⟩ 1
        = some [([1, 2], [9]), ([3, 4], [8])]) ∧
    0 < 2 ∧ (2 ∣ ([1, 2, 3, 4] : List Nat).length) ∧
    (((∀ ch ∈ chunksOf 2 [1, 2, 3, 4],
          (Table.getVal [([1, 2], [9]), ([3, 4], [8])] ch).isSome) →
        ∃ vs, Context.multiget ⟨[(1, [([1, 2], [9]), ([3, 4], [8])])], 0⟩ 1 2 [1, 2, 3, 4]
            = some vs ∧ vs.length = (chunksOf 2 [1, 2, 3, 4]).length) ∧
     ((∃ ch ∈ chunksOf 2 [1, 2, 3, 4],
          Table.getVal [([1, 2], [9]), ([3, 4], [8])] ch = none) →
        Context.multiget ⟨[(1, [([1, 2], [9]), ([3, 4], [8])])], 0⟩ 1 2 [1, 2, 3, 4]
          = none)) :=
  ⟨rfl, by decide, by decide,
   multiget_all_or_nothing ⟨[(1, [([1, 2], [9]), ([3, 4], [8])])], 0⟩ 1 2 [1, 2, 3, 4]
     [([1, 2], [9]), ([3, 4], [8])] rfl (by decide) (by decide)⟩

/-- Counterexample to claim C4 as stated: the table exists and the key
string `[1, 2, 5]` with `key_len = 2` contains a malformed key (`[5]`,
length 1), yet multiget returns `some [[9]]` — the scan breaks at the
malformed chunk and reports success with the values gathered so far,
instead of the `none` the claim requires. -/
theorem multiget_malformed_counterexample :
    Context.multiget ⟨[(1, [([1, 2], [9])])], 0⟩ 1 2 [1, 2, 5] = some [[9]] ∧
    some [[9]] ≠ (none : Option (List (List Nat))) := by
  constructor
  · decide
  · decide

/-- Refusal half of the quota: once the running total has reached the
quota, `Context::alloc` returns `none` and leaves the context unchanged
(`context.rs` lines 188-190). -/
lemma alloc_quota_refused (c : Context) (tid : Nat) (raw : Option Nat)
    (h : c.allocs ≥ MAX_ALLOC) :
    Context.alloc c tid raw = (none, c) := by
  unfold Context.alloc
  rw [if_pos h]

/-- Any run of allocations keeps the total below `MAX_ALLOC + B` when each
individual buffer is at most `B` bytes: the pre-check admits one last
allocation from a total below the quota. -/
lemma runAllocs_bounded (B : Nat) :
    ∀ (reqs : List (Nat × Option Nat)) (c : Context),
      c.allocs < MAX_ALLOC + B →
      (∀ r ∈ reqs, r.2.getD 0 ≤ B) →
      (runAllocs c reqs).1.allocs < MAX_ALLOC + B := by
  intro reqs
  induction reqs with
  | nil => exact fun c hc _ => hc
  | cons r rest ih =>
      intro c hc hB
      obtain ⟨tid, raw⟩ := r
      simp only [runAllocs]
      refine ih (Context.alloc c tid raw).2 ?_ (fun r2 h2 => hB r2 (by simp [h2]))
      unfold Context.alloc
      by_cases hq : c.allocs ≥ MAX_ALLOC
      · rw [if_pos hq]
        exact hc
      · rw [if_neg hq]
        have hqlt : c.allocs < MAX_ALLOC := Nat.lt_of_not_le hq
        cases hg : c.get_table tid with
        | none => simpa using hc
        | some tbl =>
            simp only
            cases raw with
            | none => simpa using hc
            | some len =>
                have hlen : len ≤ B := by simpa using hB (tid, some len) (by simp)
                simp only
                omega

/-- Claim C5 (amended): every `alloc` call made once the running total has
reached the 10240-byte quota returns `none` and leaves the context
untouched, so each successful allocation starts from a total below the
quota; consequently, over any sequence of allocations from a fresh
context whose individual buffers are at most `B` bytes, the total handed
out stays below `MAX_ALLOC + B` — it can overshoot the quota only by the
size of the single allocation that crosses it, not without bound. -/
theorem alloc_quota (c0 : Context) (reqs : List (Nat × Option Nat)) (B : Nat)
    (h0 : c0.allocs = 0)
    (hB : ∀ r ∈ reqs, r.2.getD 0 ≤ B) :
    (runAllocs c0 reqs).1.allocs < MAX_ALLOC + B ∧
    (∀ (c : Context) (tid : Nat) (raw : Option Nat),
      c.allocs ≥ MAX_ALLOC → Context.alloc c tid raw = (none, c)) := by
  constructor
  · refine runAllocs_bounded B reqs c0 ?_ hB
    rw [h0]
    have hpos : 0 < MAX_ALLOC := by decide
    omega
  · exact fun c tid raw h => alloc_quota_refused c tid raw h

/-- Witness for `alloc_quota` on a fresh context and one 100-byte
allocation. -/
theorem alloc_quota_witness :
    ((⟨[(1, [])], 0⟩ : Context).allocs = 0) ∧
    (∀ r ∈ ([(1, some 100)] : List (Nat × Option Nat)), r.2.getD 0 ≤ 100) ∧
    ((runAllocs ⟨[(1, [])], 0⟩ [(1, some 100)]).1.allocs < MAX_ALLOC + 100 ∧
     (∀ (c : Context) (tid : Nat) (raw : Option Nat),
       c.allocs ≥ MAX_ALLOC → Context.alloc c tid raw = (none, c))) :=
  ⟨rfl, by decide, alloc_quota ⟨[(1, [])], 0⟩ [(1, some 100)] 100 rfl (by decide)⟩

/-- Counterexample to claim C5 as stated: a fresh context (total 0) passes
the pre-check, so a single 20000-byte allocation succeeds and the total
handed out becomes 20000, exceeding the 10240-byte quota the claim says is
never exceeded. -/
theorem alloc_quota_counterexample :
    (Context.alloc ⟨[(1, [])], 0⟩ 1 (some 20000)).1 = some 20000 ∧
    (Context.alloc ⟨[(1, [])], 0⟩ 1 (some 20000)).2.allocs = 20000 ∧
    20000 > MAX_ALLOC := by
  refine ⟨by decide, by decide, by decide⟩
